import Mathlib

/-!
Verification of the budget-management repository (script.py, script2.py).

`script.py` is a Flet GUI over a `BudgetManager` that keeps two lists of dated
records (income, expenses), summarises them per period, and derives advice.
`script2.py` is a console `BudgetPlanner` with pure compound-interest math.

Modelling conventions:
* Python `float` amounts and rates are modelled as exact rationals (`ℚ`); the
  properties checked here are stated by the specification over exact arithmetic.
* Python's string comparison on ISO dates is modelled by `String`'s
  lexicographic order (identical: both compare code points).
* `datetime.date` is modelled by a Gregorian calendar `Date` with the same
  weekday and ordinal conventions as CPython (`0001-01-01` is a Monday).
* Code that can raise `ZeroDivisionError` returns `Option`.
-/

namespace BudgetApp

/-- Model of Python `datetime.date`: a Gregorian calendar date. Python enforces
`1 ≤ year ≤ 9999`, `1 ≤ month ≤ 12`, `1 ≤ day ≤ daysInMonth year month`. -/
structure Date where
  year : ℕ
  month : ℕ
  day : ℕ
deriving DecidableEq

/-- Gregorian leap-year rule (as in Python's `calendar`/`datetime`). -/
def isLeap (y : ℕ) : Bool :=
  y % 4 == 0 && (y % 100 != 0 || y % 400 == 0)

/-- Number of days in month `m` of year `y` (Gregorian). -/
def daysInMonth (y m : ℕ) : ℕ :=
  if m == 2 then (if isLeap y then 29 else 28)
  else if m == 4 || m == 6 || m == 9 || m == 11 then 30
  else 31

/-- Days of year `y` that precede the first day of month `m`. -/
def daysBeforeMonth (y m : ℕ) : ℕ :=
  (List.range (m - 1)).foldl (fun acc k => acc + daysInMonth y (k + 1)) 0

/-- Proleptic Gregorian ordinal, as in Python `date.toordinal()`
(`0001-01-01` has ordinal `1`). -/
def ordinal (d : Date) : ℕ :=
  365 * (d.year - 1) + (d.year - 1) / 4 - (d.year - 1) / 100 + (d.year - 1) / 400
    + daysBeforeMonth d.year d.month + d.day

/-- Python `date.weekday()`: Monday is `0`, Sunday is `6`. -/
def weekday (d : Date) : ℕ :=
  (ordinal d + 6) % 7

/-- Step one calendar day backwards. -/
def predDate (d : Date) : Date :=
  if 1 < d.day then ⟨d.year, d.month, d.day - 1⟩
  else if 1 < d.month then ⟨d.year, d.month - 1, daysInMonth d.year (d.month - 1)⟩
  else ⟨d.year - 1, 12, 31⟩

/-- `d - datetime.timedelta(days = n)`, as an iterated predecessor. -/
def subDays (d : Date) : ℕ → Date
  | 0 => d
  | n + 1 => subDays (predDate d) n

/-- Big-endian base-10 digits of `n`, zero-padded to width `k`
(faithful to zero-padded decimal printing whenever `n < 10 ^ k`). -/
def padBE : ℕ → ℕ → List ℕ
  | 0, _ => []
  | k + 1, n => n / 10 ^ k :: padBE k (n % 10 ^ k)

/-- The characters of `n` printed in base 10, zero-padded to width `k`. -/
def padChars (k n : ℕ) : List Char :=
  (padBE k n).map Nat.digitChar

/-- The character list of `d.strftime("%Y-%m-%d")`. -/
def dateChars (d : Date) : List Char :=
  padChars 4 d.year ++ '-' :: (padChars 2 d.month ++ '-' :: padChars 2 d.day)

/-- Python `d.strftime("%Y-%m-%d")` (faithful on Python's whole date range). -/
def fmtDate (d : Date) : String :=
  ⟨dateChars d⟩

/-- Python string comparison `s <= t` on lists of code points: lexicographic,
with a proper prefix ordered before its extensions. -/
def charListLe : List Char → List Char → Bool
  | [], _ => true
  | _ :: _, [] => false
  | a :: s, b :: t => if a < b then true else if b < a then false else charListLe s t

/-- Python `s <= t` on strings. -/
def strLe (s t : String) : Bool :=
  charListLe s.data t.data

/-- A date packed as `year * 10000 + month * 100 + day`: on bounded dates this
linearisation orders exactly like `(year, month, day)` lexicographically, hence
like the formatted `YYYY-MM-DD` strings. -/
def dateKey (d : Date) : ℕ :=
  d.year * 10000 + d.month * 100 + d.day

/-- Component bounds preserved by calendar steps and sufficient for faithful
zero-padded formatting. -/
def BoundedDate (d : Date) : Prop :=
  d.year ≤ 9999 ∧ 1 ≤ d.month ∧ d.month ≤ 12 ∧ 1 ≤ d.day ∧ d.day ≤ 31

/-- A date Python's `datetime.date` can hold. -/
def ValidDate (d : Date) : Prop :=
  1 ≤ d.year ∧ d.year ≤ 9999 ∧ 1 ≤ d.month ∧ d.month ≤ 12 ∧
    1 ≤ d.day ∧ d.day ≤ daysInMonth d.year d.month

instance (d : Date) : Decidable (ValidDate d) := by
  unfold ValidDate
  infer_instance

/-- Invariant carried while stepping back at most `n` more days: the date is
bounded, and if it has wrapped into (proleptic) year 0 it is in December with
more than `n` days of the month remaining. -/
def StepInv (n : ℕ) (d : Date) : Prop :=
  BoundedDate d ∧ (d.year = 0 → d.month = 12 ∧ n < d.day)

/-! ## script.py: the `BudgetManager` state and queries -/

/-- An entry of `self.data["income"]` in script.py. -/
structure IncomeItem where
  amount : ℚ
  source : String
  date : String
deriving DecidableEq

/-- An entry of `self.data["expenses"]` in script.py. -/
structure ExpenseItem where
  amount : ℚ
  category : String
  description : String
  date : String
deriving DecidableEq

/-- The in-memory state of script.py's `BudgetManager`: `self.data` (two lists)
plus the mutable `self.categories` set (modelled as a duplicate-free list). -/
structure BudgetManager where
  income : List IncomeItem
  expenses : List ExpenseItem
  categories : List String
deriving DecidableEq

/-- The category set installed by `BudgetManager.__init__`. -/
def defaultCategories : List String :=
  ["Groceries", "Housing", "Transportation", "Entertainment", "Utilities",
   "Healthcare", "Savings", "Debt", "Personal", "Miscellaneous"]

/-- A fresh `BudgetManager` over an empty or absent data file. -/
def BudgetManager.init : BudgetManager :=
  ⟨[], [], defaultCategories⟩

/-- `BudgetManager.add_income` (the `date` argument is always supplied here; the
`date=None` default and file persistence live outside the model). -/
def add_income (m : BudgetManager) (amount : ℚ) (source date : String) : BudgetManager :=
  { m with income := m.income ++ [⟨amount, source, date⟩] }

/-- `BudgetManager.add_expense`: registers an unknown category, appends the record. -/
def add_expense (m : BudgetManager) (amount : ℚ) (category description date : String) :
    BudgetManager :=
  { m with
    categories :=
      if category ∈ m.categories then m.categories else m.categories ++ [category]
    expenses := m.expenses ++ [⟨amount, category, description, date⟩] }

/-- `BudgetManager._filter_by_period`, generic in the record type (the Python code
is duck-typed over dicts carrying a `"date"` string; it keeps the items with
`item["date"] >= start_date` under string comparison). `now` is the clock value
`datetime.datetime.now()` read inside the function. -/
def filter_by_period {α : Type} (dateOf : α → String) (now : Date) (items : List α)
    (period : Option String) : List α :=
  match period with
  | none => items
  | some p =>
    if p = "day" then
      items.filter fun item => strLe (fmtDate now) (dateOf item)
    else if p = "week" then
      items.filter fun item => strLe (fmtDate (subDays now (weekday now))) (dateOf item)
    else if p = "month" then
      items.filter fun item => strLe (fmtDate ⟨now.year, now.month, 1⟩) (dateOf item)
    else if p = "year" then
      items.filter fun item => strLe (fmtDate ⟨now.year, 1, 1⟩) (dateOf item)
    else items

/-- The dict returned by `BudgetManager.get_summary`. -/
structure Summary where
  total_income : ℚ
  total_expenses : ℚ
  balance : ℚ
  expenses_by_category : List (String × ℚ)
deriving DecidableEq

/-- One `defaultdict(float)` update `d[category] += amount`, on a Python dict
modelled as an insertion-ordered association list with unique keys. -/
def bump : List (String × ℚ) → String → ℚ → List (String × ℚ)
  | [], c, a => [(c, a)]
  | (k, v) :: rest, c, a =>
    if k = c then (k, v + a) :: rest else (k, v) :: bump rest c a

/-- `BudgetManager.get_summary`. -/
def get_summary (now : Date) (m : BudgetManager) (period : Option String) : Summary :=
  let income := filter_by_period IncomeItem.date now m.income period
  let expenses := filter_by_period ExpenseItem.date now m.expenses period
  let total_income := (income.map IncomeItem.amount).sum
  let total_expenses := (expenses.map ExpenseItem.amount).sum
  { total_income := total_income
    total_expenses := total_expenses
    balance := total_income - total_expenses
    expenses_by_category := expenses.foldl (fun d e => bump d e.category e.amount) [] }

/-- The overspending warning emitted by `get_spending_advice`. -/
def warningMsg : String := "⚠️ Warning: You\x27re spending more than you earn!"

/-- The savings-rate recommendation emitted by `get_spending_advice`. -/
def savingsMsg : String := "Try to save at least 10% of your income."

/-- The all-clear message emitted by `get_spending_advice`. -/
def goodMsg : String := "Your budget looks good!"

/-- The cut-back recommendation for the top expense category. -/
def considerMsg (top : String) : String :=
  "Consider cutting back on " ++ top ++ ", your highest expense category."

/-- Python `sorted(..., key=..., reverse=True)` on values: a stable descending
sort (insertion sort with a non-strict comparison is exactly the stable sort). -/
def sortValuesDesc (l : List (String × ℚ)) : List (String × ℚ) :=
  List.insertionSort (fun x y : String × ℚ => y.2 ≤ x.2) l

/-- `BudgetManager.get_spending_advice` (calls `get_summary` with no period). -/
def get_spending_advice (now : Date) (m : BudgetManager) : List String :=
  let summary := get_summary now m none
  let advice₁ : List String :=
    if summary.balance < 0 then
      match sortValuesDesc summary.expenses_by_category with
      | [] => [warningMsg]
      | top :: _ => [warningMsg, considerMsg top.1]
    else []
  let savings := (summary.expenses_by_category.lookup "Savings").getD 0
  let advice₂ : List String :=
    if savings < summary.total_income * (1 / 10) then [savingsMsg] else []
  let advice := advice₁ ++ advice₂
  if advice = [] then [goodMsg] else advice

/-- A row of the list returned by `BudgetManager.get_transactions`. -/
structure Tx where
  type : String
  date : String
  amount : ℚ
  category : String
  description : String
deriving DecidableEq

/-- Python `sorted(items, key=lambda x: x["date"], reverse=True)`: the stable
descending sort by date. -/
def sortByDateDesc {α : Type} (dateOf : α → String) (l : List α) : List α :=
  List.insertionSort (fun x y => dateOf y ≤ dateOf x) l

/-- `BudgetManager.get_transactions`. -/
def get_transactions (m : BudgetManager) (transaction_type : String) (limit : ℕ) :
    List Tx :=
  let fromIncome : List Tx :=
    if transaction_type = "income" ∨ transaction_type = "all" then
      ((sortByDateDesc IncomeItem.date m.income).take limit).map fun item =>
        ⟨"Income", item.date, item.amount, item.source, item.source⟩
    else []
  let fromExpenses : List Tx :=
    if transaction_type = "expenses" ∨ transaction_type = "all" then
      ((sortByDateDesc ExpenseItem.date m.expenses).take limit).map fun item =>
        ⟨"Expense", item.date, item.amount, item.category, item.description⟩
    else []
  (sortByDateDesc Tx.date (fromIncome ++ fromExpenses)).take limit

/-- One mutating call against a `BudgetManager`. -/
inductive Op where
  | record_income (amount : ℚ) (source date : String)
  | record_expense (amount : ℚ) (category description date : String)

/-- Execute one call. -/
def applyOp (m : BudgetManager) : Op → BudgetManager
  | .record_income a s d => add_income m a s d
  | .record_expense a c de d => add_expense m a c de d

/-- Execute a call sequence against a fresh manager. -/
def runOps (ops : List Op) : BudgetManager :=
  ops.foldl applyOp BudgetManager.init

/-- The income amount recorded by one call (`0` for an expense call). -/
def opIncome : Op → ℚ
  | .record_income a _ _ => a
  | .record_expense _ _ _ _ => 0

/-- The expense amount recorded by one call (`0` for an income call). -/
def opExpense : Op → ℚ
  | .record_income _ _ _ => 0
  | .record_expense a _ _ _ => a

/-! ## script2.py: the `BudgetPlanner` math -/

/-- `BudgetPlanner.calculate_investment_growth`:
`principal * (1 + annual_rate) ** years`. -/
def calculate_investment_growth (principal annual_rate : ℚ) (years : ℕ) : ℚ :=
  principal * (1 + annual_rate) ^ years

/-- `BudgetPlanner.calculate_required_monthly_investment`. `none` models a Python
`ZeroDivisionError`: the linear branch divides by `years * 12`, and the annuity
branch divides by `((1 + monthly_rate) ** total_periods - 1) / monthly_rate`,
which Python evaluates first (with `monthly_rate ≠ 0`) and which can itself be
zero. -/
def calculate_required_monthly_investment (target_amount : ℚ) (years : ℕ)
    (annual_rate : ℚ) : Option ℚ :=
  let n : ℕ := 12
  let monthly_rate : ℚ := annual_rate / 12
  let total_periods : ℕ := years * n
  if monthly_rate = 0 then
    if years * n = 0 then none
    else some (target_amount / ((years : ℚ) * 12))
  else
    let factor := ((1 + monthly_rate) ^ total_periods - 1) / monthly_rate
    if factor = 0 then none
    else some (target_amount / factor)

/-- The future value of an ordinary annuity of `years * 12` monthly contributions
`pmt` at `annual_rate / 12` per month — the forward projection the round-trip
property composes with (`FV = PMT * ((1 + r) ^ n - 1) / r`, and `PMT * n` when
`r = 0`). -/
def annuity_future_value (pmt annual_rate : ℚ) (years : ℕ) : ℚ :=
  let monthly_rate := annual_rate / 12
  let n := years * 12
  if monthly_rate = 0 then pmt * n
  else pmt * (((1 + monthly_rate) ^ n - 1) / monthly_rate)

/-- A small concrete ledger used to instantiate universally quantified results:
income 3000 "Salary" on 2024-01-05, expense 500 "Groceries" on 2024-01-06. -/
def sampleManager : BudgetManager :=
  add_expense (add_income BudgetManager.init 3000 "Salary" "2024-01-05")
    500 "Groceries" "Weekly shop" "2024-01-06"

/-- A ledger with no income and a single 5-unit "Savings" expense. -/
def savingsOnlyManager : BudgetManager :=
  add_expense BudgetManager.init 5 "Savings" "deposit" "2024-01-02"

/-- What it means for a row to match the transaction-type filter: an `income`
filter admits only Income rows, an `expenses` filter only Expense rows, and
every admitted row is one of the two. -/
def tx_matches (tf : String) (t : Tx) : Prop :=
  (tf = "income" → t.type = "Income") ∧ (tf = "expenses" → t.type = "Expense") ∧
    (t.type = "Income" ∨ t.type = "Expense")

/-- An expense dated inside the week of Friday 2024-03-01 but before that month
started: its date falls in February while the week's Monday is 2024-02-26. -/
def cexItem : ExpenseItem :=
  ⟨50, "Groceries", "weekly shop", "2024-02-27"⟩

/-! ## Theorems -/

theorem digitChar_lt_digitChar : ∀ a < 10, ∀ b < 10, a < b →
    Nat.digitChar a < Nat.digitChar b := by decide

theorem charListLe_refl : ∀ l : List Char, charListLe l l = true := by
  intro l
  induction l with
  | nil => rfl
  | cons a t ih => simpa [charListLe] using ih

theorem charListLe_cons_self (a : Char) (s t : List Char) :
    charListLe (a :: s) (a :: t) = charListLe s t := by
  simp [charListLe]

theorem charListLe_cons_lt {a b : Char} (h : a < b) (s t : List Char) :
    charListLe (a :: s) (b :: t) = true := by
  simp [charListLe, h]

theorem charListLe_cons_iff {a b : Char} {s t : List Char} :
    charListLe (a :: s) (b :: t) = true ↔ a < b ∨ (a = b ∧ charListLe s t = true) := by
  rcases lt_trichotomy a b with h | h | h
  · simp [charListLe, h]
  · subst h
    rw [charListLe_cons_self]
    simp [lt_irrefl]
  · have h1 : ¬ a < b := lt_asymm h
    have h2 : a ≠ b := ne_of_gt h
    simp [charListLe, h1, h, h2]

theorem charListLe_trans : ∀ (l₁ l₂ l₃ : List Char), charListLe l₁ l₂ = true →
    charListLe l₂ l₃ = true → charListLe l₁ l₃ = true := by
  intro l₁
  induction l₁ with
  | nil => intro l₂ l₃ _ _; rfl
  | cons a s ih =>
    intro l₂ l₃ h12 h23
    cases l₂ with
    | nil => simp [charListLe] at h12
    | cons b t =>
      cases l₃ with
      | nil => simp [charListLe] at h23
      | cons c u =>
        rw [charListLe_cons_iff] at h12 h23 ⊢
        rcases h12 with h12 | ⟨rfl, h12⟩
        · rcases h23 with h23 | ⟨rfl, h23⟩
          · exact Or.inl (lt_trans h12 h23)
          · exact Or.inl h12
        · rcases h23 with h23 | ⟨rfl, h23⟩
          · exact Or.inl h23
          · exact Or.inr ⟨rfl, ih t u h12 h23⟩

theorem padChars_le_append (k : ℕ) : ∀ (a b : ℕ) (r₁ r₂ : List Char), a < 10 ^ k →
    b < 10 ^ k → a ≤ b → (a = b → charListLe r₁ r₂ = true) →
    charListLe (padChars k a ++ r₁) (padChars k b ++ r₂) = true := by
  induction k with
  | zero =>
    intro a b r₁ r₂ ha hb _ hr
    rw [pow_zero] at ha hb
    have ha0 : a = 0 := by omega
    have hb0 : b = 0 := by omega
    subst ha0
    subst hb0
    exact hr rfl
  | succ k ih =>
    intro a b r₁ r₂ ha hb hab hr
    have hpos : 0 < 10 ^ k := Nat.pow_pos (by norm_num)
    rw [pow_succ] at ha hb
    have hda : a / 10 ^ k < 10 := (Nat.div_lt_iff_lt_mul hpos).mpr (by omega)
    have hdb : b / 10 ^ k < 10 := (Nat.div_lt_iff_lt_mul hpos).mpr (by omega)
    have hdle : a / 10 ^ k ≤ b / 10 ^ k := Nat.div_le_div_right hab
    simp only [padChars, padBE, List.map_cons, List.cons_append]
    rcases lt_or_eq_of_le hdle with hdlt | hdeq
    · exact charListLe_cons_lt
        (digitChar_lt_digitChar _ hda _ hdb hdlt) _ _
    · rw [hdeq, charListLe_cons_self]
      have e1 := Nat.div_add_mod a (10 ^ k)
      have e2 := Nat.div_add_mod b (10 ^ k)
      rw [hdeq] at e1
      refine ih (a % 10 ^ k) (b % 10 ^ k) r₁ r₂ (Nat.mod_lt _ hpos) (Nat.mod_lt _ hpos)
        ?_ ?_
      · obtain ⟨S, hS⟩ : ∃ S, 10 ^ k * (b / 10 ^ k) = S := ⟨_, rfl⟩
        obtain ⟨ra, hra⟩ : ∃ ra, a % 10 ^ k = ra := ⟨_, rfl⟩
        obtain ⟨rb, hrb⟩ : ∃ rb, b % 10 ^ k = rb := ⟨_, rfl⟩
        rw [hS, hra] at e1
        rw [hS, hrb] at e2
        rw [hra, hrb]
        omega
      · intro heq
        apply hr
        calc a = 10 ^ k * (a / 10 ^ k) + a % 10 ^ k := (Nat.div_add_mod a _).symm
          _ = 10 ^ k * (b / 10 ^ k) + b % 10 ^ k := by rw [hdeq, heq]
          _ = b := Nat.div_add_mod b _

theorem fmtDate_le_of_key (d₁ d₂ : Date) (h₁ : BoundedDate d₁) (h₂ : BoundedDate d₂)
    (h : dateKey d₁ ≤ dateKey d₂) : strLe (fmtDate d₁) (fmtDate d₂) = true := by
  obtain ⟨hy₁, hm₁, hm₁', hd₁, hd₁'⟩ := h₁
  obtain ⟨hy₂, hm₂, hm₂', hd₂, hd₂'⟩ := h₂
  simp only [dateKey] at h
  show charListLe (dateChars d₁) (dateChars d₂) = true
  simp only [dateChars]
  refine padChars_le_append 4 _ _ _ _ (lt_of_le_of_lt hy₁ (by norm_num))
    (lt_of_le_of_lt hy₂ (by norm_num)) (by omega) ?_
  intro hyeq
  rw [charListLe_cons_self]
  refine padChars_le_append 2 _ _ _ _ (lt_of_le_of_lt hm₁' (by norm_num))
    (lt_of_le_of_lt hm₂' (by norm_num)) (by omega) ?_
  intro hmeq
  rw [charListLe_cons_self, ← List.append_nil (padChars 2 d₁.day),
    ← List.append_nil (padChars 2 d₂.day)]
  refine padChars_le_append 2 _ _ _ _ (lt_of_le_of_lt hd₁' (by norm_num))
    (lt_of_le_of_lt hd₂' (by norm_num)) (by omega) ?_
  intro _
  rfl

theorem daysInMonth_bounds (y m : ℕ) : 1 ≤ daysInMonth y m ∧ daysInMonth y m ≤ 31 := by
  rw [daysInMonth]
  split <;> split <;> omega

theorem predDate_step (n : ℕ) (d : Date) (hn : n + 1 ≤ 6) (h : StepInv (n + 1) d) :
    StepInv n (predDate d) ∧ dateKey (predDate d) ≤ dateKey d := by
  obtain ⟨⟨hy, hm, hm', hd, hd'⟩, h0⟩ := h
  by_cases h1 : 1 < d.day
  · rw [predDate, if_pos h1]
    simp only [StepInv, BoundedDate, dateKey]
    by_cases hy0 : d.year = 0
    · have h00 := h0 hy0
      omega
    · omega
  · rw [predDate, if_neg h1]
    by_cases h2 : 1 < d.month
    · rw [if_pos h2]
      have hb := daysInMonth_bounds d.year (d.month - 1)
      simp only [StepInv, BoundedDate, dateKey]
      by_cases hy0 : d.year = 0
      · have h00 := h0 hy0
        omega
      · omega
    · rw [if_neg h2]
      have hy1 : 1 ≤ d.year := by
        by_contra hc
        have h00 := h0 (by omega)
        omega
      simp only [StepInv, BoundedDate, dateKey]
      exact ⟨⟨by omega, fun _ => ⟨trivial, by omega⟩⟩, by omega⟩

theorem subDays_key_le (n : ℕ) : ∀ d : Date, n ≤ 6 → StepInv n d →
    dateKey (subDays d n) ≤ dateKey d ∧ BoundedDate (subDays d n) := by
  induction n with
  | zero => intro d _ h; exact ⟨le_refl _, h.1⟩
  | succ n ih =>
    intro d hn h
    obtain ⟨hstep, hle⟩ := predDate_step n d hn h
    obtain ⟨ih1, ih2⟩ := ih (predDate d) (by omega) hstep
    exact ⟨le_trans ih1 hle, ih2⟩

theorem weekday_le_six (d : Date) : weekday d ≤ 6 := by
  rw [weekday]
  omega

theorem filter_strLe_subset {α : Type} (dateOf : α → String) (items : List α)
    {s₁ s₂ : String} (h : strLe s₁ s₂ = true) :
    (items.filter fun it => strLe s₂ (dateOf it)) ⊆
      (items.filter fun it => strLe s₁ (dateOf it)) := by
  intro t ht
  rw [List.mem_filter] at ht ⊢
  exact ⟨ht.1, charListLe_trans _ _ _ h ht.2⟩

/-- C2 (counterexample): with `now = 2024-03-01` (a Friday), the week filter
starts at Monday `2024-02-26`, which lies before the month start `2024-03-01`,
so an expense dated `2024-02-27` is returned for period `week` but not for
period `month`: the claimed chain `week ⊆ month` fails. -/
theorem claim_C2_cex :
    ¬ (filter_by_period ExpenseItem.date ⟨2024, 3, 1⟩ [cexItem] (some "week") ⊆
       filter_by_period ExpenseItem.date ⟨2024, 3, 1⟩ [cexItem] (some "month")) := by
  intro h
  have hmem : cexItem ∈
      filter_by_period ExpenseItem.date ⟨2024, 3, 1⟩ [cexItem] (some "week") := by
    decide
  have := h hmem
  revert this
  decide

/-- C2 (amended): for any fixed valid current date, the period filter satisfies
`day ⊆ week`, `day ⊆ month ⊆ year ⊆ no-filter` and `week ⊆ no-filter`; the link
`week ⊆ month` of the claimed chain (and with it `week ⊆ year`) can fail, since
the week's Monday may precede the month (or year) start, as `claim_C2_cex`
shows. -/
theorem claim_C2 {α : Type} (dateOf : α → String) (now : Date) (items : List α)
    (hv : ValidDate now) :
    filter_by_period dateOf now items (some "day") ⊆
      filter_by_period dateOf now items (some "week") ∧
    filter_by_period dateOf now items (some "day") ⊆
      filter_by_period dateOf now items (some "month") ∧
    filter_by_period dateOf now items (some "month") ⊆
      filter_by_period dateOf now items (some "year") ∧
    filter_by_period dateOf now items (some "year") ⊆
      filter_by_period dateOf now items none ∧
    filter_by_period dateOf now items (some "week") ⊆
      filter_by_period dateOf now items none := by
  obtain ⟨hy1, hy2, hm1, hm2, hd1, hd2⟩ := hv
  have hd31 : now.day ≤ 31 := le_trans hd2 (daysInMonth_bounds now.year now.month).2
  have hbnow : BoundedDate now := ⟨hy2, hm1, hm2, hd1, hd31⟩
  have hinv : StepInv (weekday now) now := ⟨hbnow, fun h0 => absurd h0 (by omega)⟩
  obtain ⟨hwk, hwb⟩ := subDays_key_le (weekday now) now (weekday_le_six now) hinv
  have hweek_day : strLe (fmtDate (subDays now (weekday now))) (fmtDate now) = true :=
    fmtDate_le_of_key _ _ hwb hbnow hwk
  have hmonth_day : strLe (fmtDate ⟨now.year, now.month, 1⟩) (fmtDate now) = true :=
    fmtDate_le_of_key _ _ ⟨hy2, hm1, hm2, le_refl 1, (by norm_num : (1 : ℕ) ≤ 31)⟩ hbnow
      (by simp only [dateKey]; omega)
  have hyear_month :
      strLe (fmtDate ⟨now.year, 1, 1⟩) (fmtDate ⟨now.year, now.month, 1⟩) = true :=
    fmtDate_le_of_key _ _
      ⟨hy2, le_refl 1, (by norm_num : (1 : ℕ) ≤ 12), le_refl 1, (by norm_num : (1 : ℕ) ≤ 31)⟩
      ⟨hy2, hm1, hm2, le_refl 1, (by norm_num : (1 : ℕ) ≤ 31)⟩
      (by simp only [dateKey]; omega)
  refine ⟨?_, ?_, ?_, ?_, ?_⟩
  · show (items.filter fun it => strLe (fmtDate now) (dateOf it)) ⊆
      (items.filter fun it => strLe (fmtDate (subDays now (weekday now))) (dateOf it))
    exact filter_strLe_subset dateOf items hweek_day
  · show (items.filter fun it => strLe (fmtDate now) (dateOf it)) ⊆
      (items.filter fun it => strLe (fmtDate ⟨now.year, now.month, 1⟩) (dateOf it))
    exact filter_strLe_subset dateOf items hmonth_day
  · show (items.filter fun it => strLe (fmtDate ⟨now.year, now.month, 1⟩) (dateOf it)) ⊆
      (items.filter fun it => strLe (fmtDate ⟨now.year, 1, 1⟩) (dateOf it))
    exact filter_strLe_subset dateOf items hyear_month
  · show (items.filter fun it => strLe (fmtDate ⟨now.year, 1, 1⟩) (dateOf it)) ⊆ items
    intro x hx
    exact (List.mem_filter.mp hx).1
  · show (items.filter fun it => strLe (fmtDate (subDays now (weekday now))) (dateOf it)) ⊆
      items
    intro x hx
    exact (List.mem_filter.mp hx).1

/-- Witness for C2 at `now = 2024-03-01` over a one-expense ledger. -/
theorem claim_C2_witness :
    ValidDate ⟨2024, 3, 1⟩ ∧
    (filter_by_period ExpenseItem.date ⟨2024, 3, 1⟩ [cexItem] (some "day") ⊆
       filter_by_period ExpenseItem.date ⟨2024, 3, 1⟩ [cexItem] (some "week") ∧
     filter_by_period ExpenseItem.date ⟨2024, 3, 1⟩ [cexItem] (some "day") ⊆
       filter_by_period ExpenseItem.date ⟨2024, 3, 1⟩ [cexItem] (some "month") ∧
     filter_by_period ExpenseItem.date ⟨2024, 3, 1⟩ [cexItem] (some "month") ⊆
       filter_by_period ExpenseItem.date ⟨2024, 3, 1⟩ [cexItem] (some "year") ∧
     filter_by_period ExpenseItem.date ⟨2024, 3, 1⟩ [cexItem] (some "year") ⊆
       filter_by_period ExpenseItem.date ⟨2024, 3, 1⟩ [cexItem] none ∧
     filter_by_period ExpenseItem.date ⟨2024, 3, 1⟩ [cexItem] (some "week") ⊆
       filter_by_period ExpenseItem.date ⟨2024, 3, 1⟩ [cexItem] none) :=
  ⟨by decide, claim_C2 ExpenseItem.date ⟨2024, 3, 1⟩ [cexItem] (by decide)⟩

theorem foldl_applyOp_income_sum (ops : List Op) :
    ∀ m : BudgetManager,
      (((ops.foldl applyOp m).income.map IncomeItem.amount)).sum =
        ((m.income.map IncomeItem.amount)).sum + (ops.map opIncome).sum := by
  induction ops with
  | nil => intro m; simp
  | cons op rest ih =>
    intro m
    cases op with
    | record_income a s d =>
      simp only [List.foldl_cons, applyOp, add_income, ih, List.map_cons, List.sum_cons,
        List.map_append, List.sum_append, opIncome, List.map_nil, List.sum_nil]
      ring
    | record_expense a c de d =>
      simp only [List.foldl_cons, applyOp, add_expense, ih, List.map_cons, List.sum_cons,
        opIncome]
      ring

theorem foldl_applyOp_expense_sum (ops : List Op) :
    ∀ m : BudgetManager,
      (((ops.foldl applyOp m).expenses.map ExpenseItem.amount)).sum =
        ((m.expenses.map ExpenseItem.amount)).sum + (ops.map opExpense).sum := by
  induction ops with
  | nil => intro m; simp
  | cons op rest ih =>
    intro m
    cases op with
    | record_income a s d =>
      simp only [List.foldl_cons, applyOp, add_income, ih, List.map_cons, List.sum_cons,
        opExpense]
      ring
    | record_expense a c de d =>
      simp only [List.foldl_cons, applyOp, add_expense, ih, List.map_cons, List.sum_cons,
        List.map_append, List.sum_append, opExpense, List.map_nil, List.sum_nil]
      ring

/-- C1: after any finite sequence of `record_income` / `record_expense` calls, in
any order, `get_summary` with no period filter reports `total_income` equal to
the sum of all recorded income amounts, `total_expenses` equal to the sum of all
recorded expense amounts, and `balance = total_income - total_expenses`. -/
theorem claim_C1 (ops : List Op) (now : Date) :
    (get_summary now (runOps ops) none).total_income = (ops.map opIncome).sum ∧
    (get_summary now (runOps ops) none).total_expenses = (ops.map opExpense).sum ∧
    (get_summary now (runOps ops) none).balance =
      (get_summary now (runOps ops) none).total_income -
        (get_summary now (runOps ops) none).total_expenses := by
  refine ⟨?_, ?_, rfl⟩
  · show (((runOps ops).income.map IncomeItem.amount)).sum = _
    rw [runOps, foldl_applyOp_income_sum]
    simp [BudgetManager.init]
  · show (((runOps ops).expenses.map ExpenseItem.amount)).sum = _
    rw [runOps, foldl_applyOp_expense_sum]
    simp [BudgetManager.init]

theorem bump_values_nonneg :
    ∀ (d : List (String × ℚ)) (c : String) (a : ℚ),
      (∀ p ∈ d, 0 ≤ p.2) → 0 ≤ a → ∀ p ∈ bump d c a, 0 ≤ p.2 := by
  intro d
  induction d with
  | nil =>
    intro c a _ ha p hp
    simp only [bump, List.mem_singleton] at hp
    rw [hp]
    exact ha
  | cons kv rest ih =>
    intro c a hd ha p hp
    obtain ⟨k, v⟩ := kv
    by_cases h : k = c
    · rw [bump, if_pos h] at hp
      rcases List.mem_cons.mp hp with rfl | hp'
      · exact add_nonneg (hd (k, v) (List.mem_cons_self _ _)) ha
      · exact hd p (List.mem_cons_of_mem _ hp')
    · rw [bump, if_neg h] at hp
      rcases List.mem_cons.mp hp with rfl | hp'
      · exact hd (k, v) (List.mem_cons_self _ _)
      · exact ih c a (fun q hq => hd q (List.mem_cons_of_mem _ hq)) ha p hp'

theorem foldl_bump_values_nonneg (l : List ExpenseItem) :
    ∀ d : List (String × ℚ), (∀ p ∈ d, 0 ≤ p.2) → (∀ e ∈ l, 0 ≤ e.amount) →
      ∀ p ∈ l.foldl (fun d e => bump d e.category e.amount) d, 0 ≤ p.2 := by
  induction l with
  | nil => intro d hd _ p hp; exact hd p hp
  | cons e rest ih =>
    intro d hd hl p hp
    rw [List.foldl_cons] at hp
    exact ih (bump d e.category e.amount)
      (bump_values_nonneg d e.category e.amount hd (hl e (List.mem_cons_self _ _)))
      (fun q hq => hl q (List.mem_cons_of_mem _ hq)) p hp

theorem lookup_getD_nonneg (l : List (String × ℚ)) (h : ∀ p ∈ l, 0 ≤ p.2)
    (c : String) : 0 ≤ (l.lookup c).getD 0 := by
  induction l with
  | nil => simp [List.lookup]
  | cons kv rest ih =>
    obtain ⟨k, v⟩ := kv
    rw [List.lookup]
    cases hck : c == k with
    | true => exact h (k, v) (List.mem_cons_self _ _)
    | false => exact ih fun q hq => h q (List.mem_cons_of_mem _ hq)

theorem savingsMsg_ne_warningMsg : savingsMsg ≠ warningMsg := by decide

theorem savingsMsg_ne_goodMsg : savingsMsg ≠ goodMsg := by decide

theorem savingsMsg_ne_considerMsg (x : String) : savingsMsg ≠ considerMsg x := by
  intro h
  have h2 : savingsMsg.data.head? = (considerMsg x).data.head? := by rw [h]
  have hr : (considerMsg x).data.head? = some 'C' := by
    show ("Consider cutting back on " ++ x ++ ", your highest expense category.").data.head? =
      some 'C'
    rw [String.data_append, String.data_append,
      show ("Consider cutting back on " : String).data =
        'C' :: ("onsider cutting back on " : String).data from by decide]
    rfl
  have hl : savingsMsg.data.head? = some 'T' := by decide
  rw [hl, hr] at h2
  exact absurd h2 (by decide)

/-- On a fresh empty ledger the advice is exactly the all-clear message. -/
theorem advice_on_init :
    get_spending_advice ⟨2024, 1, 1⟩ BudgetManager.init = [goodMsg] := by
  simp [get_spending_advice, get_summary, filter_by_period, BudgetManager.init, List.lookup]

/-- C3 (counterexample): the claim fails on the empty ledger: `total_income = 0`
and all amounts are (vacuously) non-negative, yet `get_spending_advice` returns
only the all-clear message, not the savings-rate recommendation — the code
compares `savings < total_income * 0.1 = 0`, which no non-negative savings
amount satisfies. -/
theorem claim_C3_cex :
    (get_summary ⟨2024, 1, 1⟩ BudgetManager.init none).total_income = 0 ∧
    savingsMsg ∉ get_spending_advice ⟨2024, 1, 1⟩ BudgetManager.init := by
  refine ⟨rfl, ?_⟩
  rw [advice_on_init]
  simp only [List.mem_singleton]
  exact savingsMsg_ne_goodMsg

/-- C3 (amended): for every ledger whose recorded amounts are non-negative and
whose summary has `total_income = 0`, rule 2 never fires: the savings-rate
recommendation is absent from `get_spending_advice`, regardless of the recorded
"Savings" amount (the code's test `savings < total_income * 0.1` becomes
`savings < 0`, unsatisfiable for non-negative amounts). -/
theorem claim_C3 (now : Date) (m : BudgetManager)
    (hnn : ∀ e ∈ m.expenses, 0 ≤ e.amount)
    (h0 : (get_summary now m none).total_income = 0) :
    savingsMsg ∉ get_spending_advice now m := by
  have hvals : ∀ p ∈ (get_summary now m none).expenses_by_category, 0 ≤ p.2 := by
    show ∀ p ∈ m.expenses.foldl (fun d e => bump d e.category e.amount) [], 0 ≤ p.2
    exact foldl_bump_values_nonneg m.expenses [] (by simp) hnn
  have hsav : 0 ≤ ((get_summary now m none).expenses_by_category.lookup "Savings").getD 0 :=
    lookup_getD_nonneg _ hvals _
  have hcond : ¬ (((get_summary now m none).expenses_by_category.lookup "Savings").getD 0 <
      (get_summary now m none).total_income * (1 / 10)) := by
    rw [h0, zero_mul]
    exact not_lt.mpr hsav
  simp only [get_spending_advice]
  rw [if_neg hcond]
  by_cases hb : (get_summary now m none).balance < 0
  · rw [if_pos hb]
    rcases hsort : sortValuesDesc (get_summary now m none).expenses_by_category with
      _ | ⟨top, rest⟩ <;>
      simp [savingsMsg_ne_warningMsg, savingsMsg_ne_considerMsg]
  · rw [if_neg hb]
    simp [savingsMsg_ne_goodMsg]

/-- Witness for C3 on a ledger holding only a positive "Savings" expense. -/
theorem claim_C3_witness :
    (∀ e ∈ savingsOnlyManager.expenses, 0 ≤ e.amount) ∧
    (get_summary ⟨2024, 1, 5⟩ savingsOnlyManager none).total_income = 0 ∧
    savingsMsg ∉ get_spending_advice ⟨2024, 1, 5⟩ savingsOnlyManager := by
  have hnn : ∀ e ∈ savingsOnlyManager.expenses, 0 ≤ e.amount := by
    intro e he
    simp only [savingsOnlyManager, add_expense, BudgetManager.init, List.nil_append,
      List.mem_singleton] at he
    rw [he]
    norm_num
  exact ⟨hnn, rfl, claim_C3 ⟨2024, 1, 5⟩ savingsOnlyManager hnn rfl⟩

theorem bump_values_sum (d : List (String × ℚ)) (c : String) (a : ℚ) :
    ((bump d c a).map Prod.snd).sum = (d.map Prod.snd).sum + a := by
  induction d with
  | nil => simp [bump]
  | cons kv rest ih =>
    obtain ⟨k, v⟩ := kv
    by_cases h : k = c
    · simp only [bump, if_pos h, List.map_cons, List.sum_cons]
      ring
    · simp only [bump, if_neg h, List.map_cons, List.sum_cons, ih]
      ring

theorem foldl_bump_values_sum (l : List ExpenseItem) :
    ∀ d : List (String × ℚ),
      ((l.foldl (fun d e => bump d e.category e.amount) d).map Prod.snd).sum =
        (d.map Prod.snd).sum + (l.map ExpenseItem.amount).sum := by
  induction l with
  | nil => intro d; simp
  | cons e rest ih =>
    intro d
    simp only [List.foldl_cons, ih, bump_values_sum, List.map_cons, List.sum_cons]
    ring

/-- C4: for every ledger and every period, the values of `expenses_by_category`
sum exactly to `total_expenses` of the same summary: each filtered expense lands
in exactly one category bucket. -/
theorem claim_C4 (now : Date) (m : BudgetManager) (period : Option String) :
    (((get_summary now m period).expenses_by_category).map Prod.snd).sum =
      (get_summary now m period).total_expenses := by
  show (((filter_by_period ExpenseItem.date now m.expenses period).foldl
      (fun d e => bump d e.category e.amount) []).map Prod.snd).sum = _
  rw [foldl_bump_values_sum]
  simp only [List.map_nil, List.sum_nil, zero_add]
  rfl

/-- C7: for every period value outside `{none, day, week, month, year}`, filtering
transactions by that period returns the complete sequence unchanged (the final
`else` branch of `_filter_by_period`); the function is total, so no error is
raised. -/
theorem claim_C7 {α : Type} (dateOf : α → String) (now : Date) (items : List α)
    (p : String) (hd : p ≠ "day") (hw : p ≠ "week") (hm : p ≠ "month")
    (hy : p ≠ "year") :
    filter_by_period dateOf now items (some p) = items := by
  simp [filter_by_period, hd, hw, hm, hy]

/-- Witness for C7 at the unrecognized period `"total"`. -/
theorem claim_C7_witness :
    ("total" : String) ≠ "day" ∧
    filter_by_period ExpenseItem.date ⟨2024, 3, 1⟩ sampleManager.expenses
      (some "total") = sampleManager.expenses :=
  ⟨by decide, claim_C7 ExpenseItem.date ⟨2024, 3, 1⟩ sampleManager.expenses "total"
    (by decide) (by decide) (by decide) (by decide)⟩

/-- C9: `calculate_investment_growth` computes `principal * (1 + rate) ^ years`,
is the identity at rate `0` for any year count, and the identity at `0` years
for any rate. -/
theorem claim_C9 (P r : ℚ) (y : ℕ) :
    calculate_investment_growth P r y = P * (1 + r) ^ y ∧
    calculate_investment_growth P 0 y = P ∧
    calculate_investment_growth P r 0 = P := by
  refine ⟨rfl, ?_, ?_⟩ <;> simp [calculate_investment_growth]

/-- C10: an unrecognized transaction-type filter matches nothing: both branch
guards of `get_transactions` fail, so the result is the empty list (not a
pass-through as with unknown periods). -/
theorem claim_C10 (m : BudgetManager) (tf : String) (limit : ℕ)
    (h1 : tf ≠ "all") (h2 : tf ≠ "income") (h3 : tf ≠ "expenses") :
    get_transactions m tf limit = [] := by
  simp [get_transactions, h1, h2, h3, sortByDateDesc]

/-- Witness for C10 at the unrecognized filter `"everything"` over a non-empty
ledger. -/
theorem claim_C10_witness :
    ("everything" : String) ≠ "all" ∧
    get_transactions sampleManager "everything" 5 = [] :=
  ⟨by decide, claim_C10 sampleManager "everything" 5 (by decide) (by decide) (by decide)⟩

theorem sortByDateDesc_sorted {α : Type} (dateOf : α → String) (l : List α) :
    List.Sorted (fun x y => dateOf y ≤ dateOf x) (sortByDateDesc dateOf l) := by
  haveI : IsTotal α fun x y => dateOf y ≤ dateOf x := ⟨fun a b => le_total _ _⟩
  haveI : IsTrans α fun x y => dateOf y ≤ dateOf x := ⟨fun a b c h1 h2 => le_trans h2 h1⟩
  exact List.sorted_insertionSort _ _

theorem take_sortByDateDesc_subset {α : Type} (dateOf : α → String) (limit : ℕ)
    (l : List α) : (sortByDateDesc dateOf l).take limit ⊆ l := by
  intro t ht
  have h1 : t ∈ sortByDateDesc dateOf l := List.take_subset _ _ ht
  exact (List.perm_insertionSort _ l).subset h1

theorem mem_get_transactions (m : BudgetManager) (tf : String) (limit : ℕ) (t : Tx)
    (ht : t ∈ get_transactions m tf limit) :
    ((tf = "income" ∨ tf = "all") ∧ t.type = "Income") ∨
    ((tf = "expenses" ∨ tf = "all") ∧ t.type = "Expense") := by
  simp only [get_transactions] at ht
  have ht' := take_sortByDateDesc_subset Tx.date limit _ ht
  rcases List.mem_append.mp ht' with hI | hE
  · by_cases hc : tf = "income" ∨ tf = "all"
    · rw [if_pos hc] at hI
      obtain ⟨item, _, rfl⟩ := List.mem_map.mp hI
      exact Or.inl ⟨hc, rfl⟩
    · rw [if_neg hc] at hI
      cases hI
  · by_cases hc : tf = "expenses" ∨ tf = "all"
    · rw [if_pos hc] at hE
      obtain ⟨item, _, rfl⟩ := List.mem_map.mp hE
      exact Or.inr ⟨hc, rfl⟩
    · rw [if_neg hc] at hE
      cases hE

/-- C8: for every ledger state, every `transaction_type` filter in
`{all, income, expenses}` and every `limit`, `get_transactions` returns only
rows matching the filter, sorted by date in descending order, with at most
`limit` rows. -/
theorem claim_C8 (m : BudgetManager) (tf : String) (limit : ℕ)
    (htf : tf = "all" ∨ tf = "income" ∨ tf = "expenses") :
    (∀ t ∈ get_transactions m tf limit, tx_matches tf t) ∧
    List.Sorted (fun x y : Tx => y.date ≤ x.date) (get_transactions m tf limit) ∧
    (get_transactions m tf limit).length ≤ limit := by
  refine ⟨?_, ?_, ?_⟩
  · intro t ht
    rcases mem_get_transactions m tf limit t ht with ⟨hc, hty⟩ | ⟨hc, hty⟩
    · refine ⟨fun _ => hty, fun h => ?_, Or.inl hty⟩
      rcases hc with rfl | rfl <;> exact absurd h (by decide)
    · refine ⟨fun h => ?_, fun _ => hty, Or.inr hty⟩
      rcases hc with rfl | rfl <;> exact absurd h (by decide)
  · simp only [get_transactions]
    exact List.Pairwise.sublist (List.take_sublist _ _) (sortByDateDesc_sorted Tx.date _)
  · simp only [get_transactions, List.length_take]
    exact min_le_left _ _

/-- Witness for C8 over the sample ledger with the `"all"` filter. -/
theorem claim_C8_witness :
    (("all" : String) = "all" ∨ ("all" : String) = "income" ∨
      ("all" : String) = "expenses") ∧
    ((∀ t ∈ get_transactions sampleManager "all" 10, tx_matches "all" t) ∧
     List.Sorted (fun x y : Tx => y.date ≤ x.date)
       (get_transactions sampleManager "all" 10) ∧
     (get_transactions sampleManager "all" 10).length ≤ 10) :=
  ⟨Or.inl rfl, claim_C8 sampleManager "all" 10 (Or.inl rfl)⟩

/-- At `annual_rate = -24` the monthly rate is `-2`, so the annuity factor
`((1 - 2) ^ 12 - 1) / (-2)` is `0` and the final division raises
`ZeroDivisionError` (modelled as `none`), even though `years = 1 ≥ 1`. -/
theorem calcReq_at_neg24 :
    calculate_required_monthly_investment 100 1 (-24) = none := by
  unfold calculate_required_monthly_investment
  norm_num

/-- C5 (counterexample): the round-trip law fails at `target = 100`, `years = 1`,
`annual_rate = -24`: the code raises `ZeroDivisionError` instead of returning a
payment, so no projection reconstructs the target. -/
theorem claim_C5_cex :
    ¬ ((calculate_required_monthly_investment 100 1 (-24)).map
        (fun pmt => annuity_future_value pmt (-24) 1) = some 100) := by
  rw [calcReq_at_neg24]
  simp

/-- C5 (amended): for every `target_amount`, every `years ≥ 1`, and every
`annual_rate` that is zero or makes the annuity factor
`(1 + annual_rate/12) ^ (years*12) - 1` nonzero (the factor vanishes only at
`annual_rate = -24`), the computed monthly payment, projected forward through
the future-value-of-an-ordinary-annuity formula with `monthly_rate =
annual_rate/12` over `years*12` periods (or summed linearly when the monthly
rate is zero), reconstructs `target_amount` exactly over rational arithmetic. -/
theorem claim_C5 (target : ℚ) (years : ℕ) (rate : ℚ) (hy : 1 ≤ years)
    (hf : rate = 0 ∨ (1 + rate / 12) ^ (years * 12) - 1 ≠ 0) :
    (calculate_required_monthly_investment target years rate).map
      (fun pmt => annuity_future_value pmt rate years) = some target := by
  by_cases h0 : rate / 12 = 0
  · have h12 : years * 12 ≠ 0 := by omega
    have hq : ((years : ℚ) * 12) ≠ 0 := by
      have : (years : ℚ) ≠ 0 := Nat.cast_ne_zero.mpr (by omega)
      positivity
    have e1 : calculate_required_monthly_investment target years rate =
        some (target / ((years : ℚ) * 12)) := by
      simp only [calculate_required_monthly_investment]
      rw [if_pos h0, if_neg h12]
    have e2 : annuity_future_value (target / ((years : ℚ) * 12)) rate years = target := by
      simp only [annuity_future_value]
      rw [if_pos h0]
      push_cast
      rw [div_mul_cancel₀ _ hq]
    rw [e1]
    simpa using e2
  · have hf' : (1 + rate / 12) ^ (years * 12) - 1 ≠ 0 := by
      refine hf.resolve_left fun hr => h0 ?_
      rw [hr]
      norm_num
    have hfac : ((1 + rate / 12) ^ (years * 12) - 1) / (rate / 12) ≠ 0 :=
      div_ne_zero hf' h0
    have e1 : calculate_required_monthly_investment target years rate =
        some (target / (((1 + rate / 12) ^ (years * 12) - 1) / (rate / 12))) := by
      simp only [calculate_required_monthly_investment]
      rw [if_neg h0, if_neg hfac]
    have e2 : annuity_future_value
        (target / (((1 + rate / 12) ^ (years * 12) - 1) / (rate / 12))) rate years =
        target := by
      simp only [annuity_future_value]
      rw [if_neg h0, div_mul_cancel₀ _ hfac]
    rw [e1]
    simpa using e2

/-- Witness for C5 at `target = 4095`, `years = 1`, `annual_rate = 12` (monthly
rate `1`, factor `2 ^ 12 - 1 = 4095`). -/
theorem claim_C5_witness :
    (1 : ℕ) ≤ 1 ∧
    (calculate_required_monthly_investment 4095 1 12).map
      (fun pmt => annuity_future_value pmt 12 1) = some 4095 := by
  refine ⟨le_refl 1, claim_C5 4095 1 12 (le_refl 1) (Or.inr ?_)⟩
  norm_num

/-- C6 (counterexample): `years ≥ 1` alone does not rule out division by zero:
at `annual_rate = -24`, `years = 1` the annuity branch divides by zero. -/
theorem claim_C6_cex :
    ¬ (calculate_required_monthly_investment 100 1 (-24)).isSome = true := by
  rw [calcReq_at_neg24]
  simp

/-- C6 (amended): the `monthly_rate == 0` special case returns
`target_amount / (years * 12)`, so with `years ≥ 1` and a rate that is zero or
keeps the annuity factor nonzero (every rate except `-24`), no division by zero
occurs; the unguarded combination `years = 0` with `annual_rate = 0` divides by
zero (`none`), and must be prevented by the caller. -/
theorem claim_C6 (target : ℚ) (years : ℕ) (rate : ℚ) :
    (rate = 0 → 1 ≤ years →
      calculate_required_monthly_investment target years rate =
        some (target / ((years : ℚ) * 12))) ∧
    (1 ≤ years → (rate = 0 ∨ (1 + rate / 12) ^ (years * 12) - 1 ≠ 0) →
      (calculate_required_monthly_investment target years rate).isSome = true) ∧
    calculate_required_monthly_investment target 0 0 = none := by
  refine ⟨?_, ?_, ?_⟩
  · intro hr hy
    have h0 : rate / 12 = 0 := by rw [hr]; norm_num
    have h12 : years * 12 ≠ 0 := by omega
    simp only [calculate_required_monthly_investment]
    rw [if_pos h0, if_neg h12]
  · intro hy hf
    simp only [calculate_required_monthly_investment]
    by_cases h0 : rate / 12 = 0
    · have h12 : years * 12 ≠ 0 := by omega
      rw [if_pos h0, if_neg h12]
      rfl
    · have hf' : (1 + rate / 12) ^ (years * 12) - 1 ≠ 0 := by
        refine hf.resolve_left fun hr => h0 ?_
        rw [hr]
        norm_num
      have hfac : ((1 + rate / 12) ^ (years * 12) - 1) / (rate / 12) ≠ 0 :=
        div_ne_zero hf' h0
      rw [if_neg h0, if_neg hfac]
      rfl
  · simp only [calculate_required_monthly_investment]
    norm_num

/-- Witness for C6 at `target = 24`, `years = 1`, `rate = 0`. -/
theorem claim_C6_witness :
    calculate_required_monthly_investment 24 1 0 = some 2 ∧
    (calculate_required_monthly_investment 24 1 0).isSome = true ∧
    calculate_required_monthly_investment 24 0 0 = none := by
  obtain ⟨h1, h2, h3⟩ := claim_C6 24 1 0
  refine ⟨?_, h2 (le_refl 1) (Or.inl rfl), h3⟩
  rw [h1 rfl (le_refl 1)]
  norm_num

end BudgetApp
